import Mathlib

/-!
Verification of the ReAct-agent parsing core of `src/agent/agent.ts`.

Strings are modelled as `List Char`. Every JavaScript regular expression used
by the source is rendered by a dedicated Lean function implementing its
leftmost-match semantics; each rendering is documented next to its definition.
None of the regexes carries the `s` or `m` flag, so `.` matches every
character except a line terminator (LF, CR, U+2028, U+2029) and `$` matches
only at the end of the input.
-/

namespace Agent

/-- Characters excluded by `.` in a JavaScript regex without the `s` flag:
LF, CR, LINE SEPARATOR and PARAGRAPH SEPARATOR. -/
def isLineTerm (c : Char) : Bool :=
  c = '\n' || c = '\r' || c = '\u2028' || c = '\u2029'

/-- Whitespace removed by JavaScript `String.prototype.trim`: ASCII blanks,
NBSP, BOM and the line terminators. (Other exotic Unicode space separators
are omitted; the source never produces them.) -/
def isJsWs (c : Char) : Bool :=
  c = ' ' || c = '\t' || c = '\n' || c = '\r' || c = '\x0b' || c = '\x0c' ||
  c = '\xa0' || c = '\u2028' || c = '\u2029' || c = '\uFEFF'

/-- JavaScript `str.trim()`. -/
def trim (s : List Char) : List Char :=
  ((s.dropWhile isJsWs).reverse.dropWhile isJsWs).reverse

/-- The span a greedy `(.*)` capture covers when it starts here: everything up
to the next line terminator. -/
def restOfLine (s : List Char) : List Char :=
  s.takeWhile (fun c => !isLineTerm c)

/-- Whether `pat` occurs as a contiguous substring of the first argument. -/
def containsSub : List Char → List Char → Bool
  | [], pat => pat.isPrefixOf []
  | c :: t, pat => pat.isPrefixOf (c :: t) || containsSub t pat

/-- Suffix immediately after the first (leftmost) occurrence of the literal
`pat`; `none` when `pat` does not occur. This is the scan a JavaScript regex
performs for a pattern beginning with the literal `pat`. -/
def findAfter (pat : List Char) : List Char → Option (List Char)
  | [] => if pat.isPrefixOf [] then some [] else none
  | c :: t =>
    if pat.isPrefixOf (c :: t) then some (List.drop pat.length (c :: t))
    else findAfter pat t

/-- Capture of `str.match(/pat(.*)/)` for the patterns with nothing after
the greedy group: `/Action: (.*)/`, `/Action Input: (.*)/` (conversational),
`/AI:(.*)/`, `/Final Answer:(.*)/` and `/\nPositivity:(.*)/`. These match at
the first occurrence of the literal `pat` unconditionally, and the capture
is the rest of that line. -/
def matchFirst (pat s : List Char) : Option (List Char) :=
  (findAfter pat s).map restOfLine

/-- Acceptance of the trailing `(\n|$)` group after a greedy `(.*)`: true
when the current line is ended by LF or by the end of the input. A line
ended by CR, LS or PS fails the group at this occurrence: `.` cannot consume
the terminator, `\n` does not match it, `$` only matches at the very end of
the input, and backtracking the `(.*)` only moves the required position onto
non-newline characters, so no shorter capture helps. -/
def endsLnOrEof : List Char → Bool
  | [] => true
  | c :: t => if c = '\n' then true else if isLineTerm c then false else endsLnOrEof t

/-- Suffix after the first occurrence of `pat` whose line the trailing
`(\n|$)` group accepts; on a failing occurrence the engine resumes the scan
one position further, reaching later occurrences, and yields no match when
no occurrence qualifies. -/
def findAfterLn (pat : List Char) : List Char → Option (List Char)
  | [] => if pat.isPrefixOf [] then some [] else none
  | c :: t =>
    if pat.isPrefixOf (c :: t) && endsLnOrEof (List.drop pat.length (c :: t)) then
      some (List.drop pat.length (c :: t))
    else findAfterLn pat t

/-- Capture of `str.match(/pat(.*)(\n|$)/)` - the non-conversational
`/Action:(.*)(\n|$)/` and `/Action Input: (.*)(\n|$)/`: rest of the line at
the first occurrence of `pat` that the `(\n|$)` group accepts; `none` when
every occurrence sits on a line ended by CR, LS or PS. -/
def matchFirstLn (pat s : List Char) : Option (List Char) :=
  (findAfterLn pat s).map restOfLine

/-- The literal `Action:` (regex source, also checked after a newline by the
thought pattern). -/
def actionColonPat : List Char := "Action:".data

/-- The literal `Action: ` of the conversational action regex. -/
def convActionPat : List Char := "Action: ".data

/-- The literal `\nAction:` of the thought regex. -/
def nlActionPat : List Char := "\nAction:".data

/-- The literal `Action Input: ` of both tool-input regexes. -/
def actionInputSpacePat : List Char := "Action Input: ".data

/-- The literal `Action Input:` (marker without its trailing space). -/
def actionInputColonPat : List Char := "Action Input:".data

/-- The literal `AI:` of the conversational answer regex. -/
def aiPat : List Char := "AI:".data

/-- The literal `Final Answer:` of the non-conversational answer regex. -/
def finalAnswerPat : List Char := "Final Answer:".data

/-- The literal `\nPositivity:` of the positivity regex. -/
def nlPositivityPat : List Char := "\nPositivity:".data

/-- The literal `None` rejected by the non-conversational action guard. -/
def nonePat : List Char := "None".data

/-- Capture of `result.match(/(.*)\nAction:/)` (used by both parsers).
Leftmost-match derivation: a match is a run of non-terminator characters
followed by the literal `\nAction:`, so the engine succeeds exactly at the
first newline that is followed by `Action:`, and the greedy `(.*)` then
stretches back to the previous line terminator (or the start of the input).
Hence the capture is the final line segment preceding the first `\nAction:`
occurrence. The accumulator holds the current segment reversed and is reset
at every line terminator. -/
def matchThoughtAux : List Char → List Char → Option (List Char)
  | [], _ => none
  | c :: rest, acc =>
    if c = '\n' then
      if actionColonPat.isPrefixOf rest then some acc.reverse
      else matchThoughtAux rest []
    else if isLineTerm c then matchThoughtAux rest []
    else matchThoughtAux rest (c :: acc)

/-- Capture group 1 of `result.match(/(.*)\nAction:/)`. -/
def matchThought (result : List Char) : Option (List Char) :=
  matchThoughtAux result []

/-- Splits at every line terminator (the segments a dotall-free `(.*)` can
range over). An empty input yields one empty segment, as JavaScript split
does. -/
def splitTermLines : List Char → List (List Char)
  | [] => [[]]
  | c :: rest =>
    if isLineTerm c then [] :: splitTermLines rest
    else
      match splitTermLines rest with
      | [] => [[c]]
      | l :: ls => (c :: l) :: ls

/-- JavaScript `observation.split('\n')` used by the non-conversational
scratchpad builder: splits at LF only. -/
def splitOnNewline : List Char → List (List Char)
  | [] => [[]]
  | c :: rest =>
    if c = '\n' then [] :: splitOnNewline rest
    else
      match splitOnNewline rest with
      | [] => [[c]]
      | l :: ls => (c :: l) :: ls

/-- Suffix after the first occurrence of the character `c`. -/
def afterFirst (c : Char) : List Char → Option (List Char)
  | [] => none
  | x :: t => if x = c then some t else afterFirst c t

/-- Prefix strictly before the last occurrence of the character `c`. -/
def beforeLast (c : Char) (l : List Char) : Option (List Char) :=
  (afterFirst c l.reverse).map List.reverse

/-- Match of `c(.*)c` within one terminator-free segment: present exactly when
the segment holds two occurrences of `c`; the greedy capture spans from just
after the first occurrence to just before the last one. -/
def stripLine (c : Char) (line : List Char) : Option (List Char) :=
  match afterFirst c line with
  | none => none
  | some r => beforeLast c r

/-- First segment (in order) on which `f` fires; matches the leftmost-match
scan order of the regex engine across line boundaries. -/
def firstSome (f : List Char → Option (List Char)) : List (List Char) → Option (List Char)
  | [] => none
  | l :: ls =>
    match f l with
    | some r => some r
    | none => firstSome f ls

/-- Source `strip` (agent.ts lines 15-21): capture of
`str.match(new RegExp(c + "(.*)" + c))` when it matches, else `str`
unchanged. Both occurrences of `c` must sit on one line because `.` cannot
cross a line terminator. -/
def strip (str : List Char) (c : Char) : List Char :=
  match firstSome (stripLine c) (splitTermLines str) with
  | some m => m
  | none => str

/-- Source `stripQuotes` (agent.ts lines 23-25). -/
def stripQuotes (str : List Char) : List Char :=
  strip (strip str '"') '\''

/-- Decimal digit accumulation, most significant first. -/
def digitsValAux (acc : Nat) : List Char → Nat
  | [] => acc
  | c :: t => digitsValAux (acc * 10 + (c.toNat - 48)) t

/-- Value of a digit string. -/
def digitsVal (l : List Char) : Nat := digitsValAux 0 l

/-- Result of JavaScript `parseFloat`: NaN, an infinity, or a finite value
`num / den` with `den` a power of ten. (IEEE double rounding is not
modelled; the source only compares the value against 9.) -/
inductive JsFloat where
  | nan : JsFloat
  | posInf : JsFloat
  | negInf : JsFloat
  | finite (num : Int) (den : Nat) : JsFloat
deriving DecidableEq

/-- The comparison `parseFloat(x) >= 9` of agent.ts line 222; false on NaN. -/
def jsFloatGE9 : JsFloat → Bool
  | .nan => false
  | .posInf => true
  | .negInf => false
  | .finite n d => decide ((9 : Int) * (d : Int) ≤ n)

/-- JavaScript `parseFloat` on an already-trimmed string: optional sign, then
`Infinity`, or decimal digits with optional fraction and exponent; the longest
valid prefix is read and trailing garbage is ignored; no valid prefix gives
NaN. -/
def jsParseFloat (s : List Char) : JsFloat :=
  let signSplit :=
    match s with
    | '+' :: t => (false, t)
    | '-' :: t => (true, t)
    | _ => (false, s)
  let neg := signSplit.1
  let s1 := signSplit.2
  if ("Infinity".data).isPrefixOf s1 then
    (if neg then .negInf else .posInf)
  else
    let ds := s1.takeWhile Char.isDigit
    let r1 := s1.drop ds.length
    let fracSplit :=
      match r1 with
      | '.' :: t => (t.takeWhile Char.isDigit, t.drop (t.takeWhile Char.isDigit).length)
      | _ => ([], r1)
    let fs := fracSplit.1
    let r2 := fracSplit.2
    if ds.isEmpty && fs.isEmpty then .nan
    else
      let expSplit :=
        match r2 with
        | 'e' :: '+' :: t => (false, t.takeWhile Char.isDigit)
        | 'e' :: '-' :: t => (true, t.takeWhile Char.isDigit)
        | 'e' :: t => (false, t.takeWhile Char.isDigit)
        | 'E' :: '+' :: t => (false, t.takeWhile Char.isDigit)
        | 'E' :: '-' :: t => (true, t.takeWhile Char.isDigit)
        | 'E' :: t => (false, t.takeWhile Char.isDigit)
        | _ => (false, [])
      let eneg := expSplit.1
      let e := digitsVal expSplit.2
      let m := digitsVal (ds ++ fs)
      let sign : Int := if neg then -1 else 1
      if eneg then .finite (sign * (m : Int)) (10 ^ (fs.length + e))
      else .finite (sign * ((m : Int) * (10 : Int) ^ e)) (10 ^ fs.length)

/-- Modelled from the spec: the Tool Descriptor (`Plugin` of `@/types/agent`,
not under src/): machine-facing name, human-facing name, both descriptions,
optional logo reference and display flag. -/
structure Plugin where
  nameForModel : List Char
  nameForHuman : List Char
  descriptionForHuman : List Char
  descriptionForModel : List Char
  logoUrl : Option (List Char)
  displayForUser : Bool
deriving DecidableEq


/-- Modelled from the spec: the Agent Decision (`ReactAgentResult` of
`@/types/agent`, not under src/): a tagged variant holding either an action
(thought, resolved tool, tool input) or a final answer string. -/
inductive ReactAgentResult where
  | action (thought : List Char) (plugin : Plugin) (pluginInput : List Char) : ReactAgentResult
  | answer (answer : List Char) : ReactAgentResult
deriving DecidableEq

/-- Failure raised by the parsers; carries the unresolved action string (the
source throws `new Error` with a message built from it). -/
inductive AgentError where
  | toolNotFound (action : List Char) : AgentError
deriving DecidableEq

/-- The thought variable of both parsers: `matchThought ? matchThought[1] || edge : edge` collapses
to the capture, with the empty string when the regex does not match
(agent.ts lines 114-118 and 228-232). -/
def parsedThought (result : List Char) : List Char :=
  (matchThought result).getD []

/-- Conversational action string: capture of `/Action: (.*)/` trimmed and
quote-stripped (agent.ts lines 119-127). -/
def convActionStr (result : List Char) : List Char :=
  stripQuotes (trim ((matchFirst convActionPat result).getD []))

/-- Conversational tool input: capture of `/Action Input: (.*)/` (agent.ts
line 122) defaulted to the empty string, trimmed, quote-stripped (lines
123-126). -/
def extractedToolInput (result : List Char) : List Char :=
  stripQuotes (trim ((matchFirst actionInputSpacePat result).getD []))

/-- Non-conversational tool input: capture of `/Action Input: (.*)(\n|$)/`
(agent.ts line 250) defaulted to the empty string, trimmed, quote-stripped
(lines 251-254); the trailing group makes the match skip occurrences on
CR-, LS- or PS-terminated lines. -/
def nonConvToolInput (result : List Char) : List Char :=
  stripQuotes (trim ((matchFirstLn actionInputSpacePat result).getD []))

/-- Source `_parseResult` (agent.ts lines 113-144). The condition
`thought && matchAction` tests the match object, not the capture, so an empty
action capture still enters the action branch. -/
def _parseResult (tools : List Plugin) (result : List Char) :
    Except AgentError ReactAgentResult :=
  if !(parsedThought result).isEmpty && (matchFirst convActionPat result).isSome then
    match tools.find? (fun t => t.nameForModel == convActionStr result) with
    | none => .error (.toolNotFound (convActionStr result))
    | some tool =>
      .ok (.action (trim (parsedThought result)) tool (extractedToolInput result))
  else
    .ok (.answer ((matchFirst aiPat result).getD []))

/-- Raw capture of `/Final Answer:(.*)/`, defaulted to the empty string
(agent.ts lines 213-214); the truthiness guards test this untrimmed value. -/
def nonConvRawAnswer (result : List Char) : List Char :=
  (matchFirst finalAnswerPat result).getD []

/-- The `answerResult` value (agent.ts lines 215-218): answer trimmed. -/
def nonConvAnswerResult (result : List Char) : ReactAgentResult :=
  .answer (trim (nonConvRawAnswer result))

/-- The positivity test `matchPositivity && parseFloat(matchPositivity[1].trim()) >= 9`
(agent.ts lines 221-222). -/
def nonConvPosOk (result : List Char) : Bool :=
  match matchFirst nlPositivityPat result with
  | some cap => jsFloatGE9 (jsParseFloat (trim cap))
  | none => false

/-- The non-conversational action variable (agent.ts lines 233-238): set to
the trimmed, quote-stripped capture of `/Action:(.*)(\n|$)/` only when the
thought is non-empty and the regex matched, else left as the empty string.
Both the truthiness guard and the capture observe the `(\n|$)` group, so an
`Action:` occurrence on a CR-, LS- or PS-terminated line is skipped. -/
def nonConvAction (result : List Char) : List Char :=
  if !(parsedThought result).isEmpty && (matchFirstLn actionColonPat result).isSome then
    stripQuotes (trim ((matchFirstLn actionColonPat result).getD []))
  else []

/-- The reduced tool projection built at agent.ts lines 258-264 (all six
descriptor fields copied). -/
def projPlugin (t : Plugin) : Plugin :=
  ⟨t.nameForModel, t.nameForHuman, t.descriptionForHuman, t.descriptionForModel,
   t.logoUrl, t.displayForUser⟩

/-- Source `parseResultForNotConversational` (agent.ts lines 209-270):
positivity short-circuit first (guarded by the raw answer being non-empty),
then the action branch guarded by thought, a non-empty action and the absence
of the literal `None` in it; an unresolved tool falls back to the answer when
the raw answer is non-empty and raises otherwise. -/
def parseResultForNotConversational (tools : List Plugin) (result : List Char) :
    Except AgentError ReactAgentResult :=
  if nonConvPosOk result && !(nonConvRawAnswer result).isEmpty then
    .ok (nonConvAnswerResult result)
  else if !(parsedThought result).isEmpty && !(nonConvAction result).isEmpty &&
      !containsSub (nonConvAction result) nonePat then
    match tools.find? (fun t => t.nameForModel == nonConvAction result) with
    | none =>
      if !(nonConvRawAnswer result).isEmpty then .ok (nonConvAnswerResult result)
      else .error (.toolNotFound (nonConvAction result))
    | some tool =>
      .ok (.action (trim (parsedThought result)) (projPlugin tool) (nonConvToolInput result))
  else .ok (nonConvAnswerResult result)

/-- Modelled from the spec: one Prior Step Record action part (`@/types/agent`
is not under src/); the builders read `.thought`, `.plugin` (the full
descriptor) and `.pluginInput` from it. -/
structure AgentActionRecord where
  thought : List Char
  plugin : Plugin
  pluginInput : List Char
deriving DecidableEq

/-- Modelled from the spec: one Prior Step Record (`PluginResult` of
`@/types/agent`, not under src/): the action taken and the observation. -/
structure PluginResult where
  action : AgentActionRecord
  result : List Char
deriving DecidableEq

/-- JavaScript template-literal coercion of a plain object: the
conversational builder interpolates the whole plugin object, which renders as
the fixed text `[object Object]`. -/
def jsTemplateOfPlugin (_p : Plugin) : List Char := "[object Object]".data

/-- Source conversational scratchpad construction (agent.ts lines 88-97):
one block per prior record, then the trailing `Thought:` generation cue. -/
def buildAgentScratchpad (toolActionResults : List PluginResult) : List Char :=
  (toolActionResults.foldl
    (fun acc r =>
      acc ++ ("Thought:".data) ++ r.action.thought
        ++ ("\nAction:".data) ++ jsTemplateOfPlugin r.action.plugin
        ++ ("\nAction Input: ".data) ++ r.action.pluginInput
        ++ ("\nObservation: ".data) ++ r.result ++ ("\n".data))
    [])
  ++ ("Thought:".data)

/-- Observation fencing of the non-conversational builder (agent.ts lines
182-185): observations spanning more than five newline-separated parts are
wrapped in triple-quote fences. -/
def wrapObservation (obs : List Char) : List Char :=
  if 5 < (splitOnNewline obs).length then
    ("\"\"\"\n".data) ++ obs ++ ("\n\"\"\"".data)
  else obs

/-- Source non-conversational scratchpad construction (agent.ts lines
179-192): note the space after `Thought:` and `Action:` and the use of the
machine-facing tool name. -/
def buildNotConversationalScratchpad (toolActionResults : List PluginResult) : List Char :=
  (toolActionResults.foldl
    (fun acc r =>
      acc ++ ("Thought: ".data) ++ r.action.thought
        ++ ("\nAction: ".data) ++ r.action.plugin.nameForModel
        ++ ("\nAction Input: ".data) ++ r.action.pluginInput
        ++ ("\nObservation: ".data) ++ wrapObservation r.result ++ ("\n".data))
    [])
  ++ ("Thought:".data)

/-- Sample tool used by concrete witnesses and counterexamples. -/
def webSearch : Plugin :=
  ⟨"web_search".data, "Web Search".data, "Searches the web.".data,
   "Searches the web for the query.".data, none, true⟩

/-- Concrete completion of Example 1 of the spec. -/
def example1Input : List Char :=
  "I should search.\nAction: web_search\nAction Input: weather today\n".data

/-- Completion whose thought span carries surrounding double quotes. -/
def c1CexInput : List Char :=
  "\"deep thought\"\nAction: web_search\nAction Input: x".data

/-- Completion whose Positivity marker sits at the very start (no preceding
newline) while a confident answer and a well-formed action both appear. -/
def c2CexInput : List Char :=
  "Positivity: 9.5\nFinal Answer: Done.\nthink\nAction: web_search\nAction Input: x".data

/-- Completion of Example 3 of the spec. -/
def c2WitnessInput : List Char := "Final Answer: Done.\nPositivity: 9.5".data

/-- Completion with an unresolvable action containing the literal `None` and
no Final Answer candidate. -/
def c3CexInput : List Char := "think\nAction: NoneSuch\nAction Input: x".data

/-- Completion with an ordinary unresolvable action and no Final Answer. -/
def c3WitnessInput : List Char := "think\nAction: ghost\nAction Input: x".data

/-- Completion whose thought spans two lines before the action marker. -/
def c5CexInput : List Char := "A\nB\nAction: web_search\nAction Input: x".data

theorem containsSub_of_isPrefixOf {s p : List Char} (h : p.isPrefixOf s = true) :
    containsSub s p = true := by
  cases s with
  | nil => simpa [containsSub] using h
  | cons c t => simp [containsSub, h]

theorem isPrefixOf_trans {p q s : List Char}
    (h1 : p.isPrefixOf q = true) (h2 : q.isPrefixOf s = true) :
    p.isPrefixOf s = true := by
  rw [List.isPrefixOf_iff_prefix] at h1 h2 ⊢
  exact h1.trans h2

theorem containsSub_mono {p q s : List Char} (hpq : p.isPrefixOf q = true)
    (h : containsSub s q = true) : containsSub s p = true := by
  induction s with
  | nil =>
    have h' : q.isPrefixOf [] = true := h
    exact containsSub_of_isPrefixOf (isPrefixOf_trans hpq h')
  | cons c t ih =>
    have h' : (q.isPrefixOf (c :: t) || containsSub t q) = true := h
    show (p.isPrefixOf (c :: t) || containsSub t p) = true
    cases h1 : q.isPrefixOf (c :: t) with
    | true =>
      rw [isPrefixOf_trans hpq h1]
      rfl
    | false =>
      rw [h1] at h'
      simp only [Bool.false_or] at h'
      rw [ih h']
      simp

theorem findAfter_eq_none {p s : List Char} (h : containsSub s p = false) :
    findAfter p s = none := by
  induction s with
  | nil =>
    simp only [containsSub] at h
    simp [findAfter, h]
  | cons c t ih =>
    rcases Bool.or_eq_false_iff.mp (by simpa [containsSub] using h) with ⟨h1, h2⟩
    simp [findAfter, h1, ih h2]

theorem matchFirst_eq_none {p s : List Char} (h : containsSub s p = false) :
    matchFirst p s = none := by
  simp [matchFirst, findAfter_eq_none h]

theorem findAfterLn_none_of_findAfter {pat : List Char} :
    ∀ {s : List Char}, findAfter pat s = none → findAfterLn pat s = none := by
  intro s
  induction s with
  | nil =>
    intro h
    cases hp : pat.isPrefixOf ([] : List Char) with
    | true => simp [findAfter, hp] at h
    | false => simp [findAfterLn, hp]
  | cons c t ih =>
    intro h
    cases hp : pat.isPrefixOf (c :: t) with
    | true => simp [findAfter, hp] at h
    | false =>
      have ht : findAfter pat t = none := by simpa [findAfter, hp] using h
      simp [findAfterLn, hp, ih ht]

theorem matchThoughtAux_eq_none {s : List Char}
    (h : containsSub s actionColonPat = false) :
    ∀ acc, matchThoughtAux s acc = none := by
  induction s with
  | nil => intro acc; rfl
  | cons c t ih =>
    intro acc
    rcases Bool.or_eq_false_iff.mp (by simpa [containsSub] using h) with ⟨_, h2⟩
    have hpre : actionColonPat.isPrefixOf t = false := by
      cases hx : actionColonPat.isPrefixOf t with
      | false => rfl
      | true => exact absurd (containsSub_of_isPrefixOf hx) (by simp [h2])
    by_cases hc : c = '\n'
    · simp [matchThoughtAux, hc, hpre, ih h2]
    · cases hl : isLineTerm c with
      | true => simp [matchThoughtAux, hc, hl, ih h2]
      | false => simp [matchThoughtAux, hc, hl, ih h2]

theorem matchThought_eq_none {s : List Char}
    (h : containsSub s actionColonPat = false) : matchThought s = none :=
  matchThoughtAux_eq_none h []

/-- Claim C4: a completion carrying none of the recognized markers - no
thought-and-action pair for either parser, no `AI:` marker for the
conversational parser, no `Final Answer:` marker for the non-conversational
parser - makes both parsers return an answer decision holding the empty
string; neither parser raises an error. -/
theorem no_markers_empty_answer (ts : List Plugin) (s : List Char)
    (hconv : (!(parsedThought s).isEmpty && (matchFirst convActionPat s).isSome) = false)
    (hnc : (!(parsedThought s).isEmpty && (matchFirst actionColonPat s).isSome) = false)
    (hai : containsSub s aiPat = false)
    (hfa : containsSub s finalAnswerPat = false) :
    _parseResult ts s = .ok (.answer []) ∧
    parseResultForNotConversational ts s = .ok (.answer []) := by
  constructor
  · simp [_parseResult, hconv, matchFirst_eq_none hai]
  · have hraw : nonConvRawAnswer s = [] := by
      simp [nonConvRawAnswer, matchFirst_eq_none hfa]
    have haction : nonConvAction s = [] := by
      cases hth : (parsedThought s).isEmpty with
      | true => simp [nonConvAction, hth]
      | false =>
        rw [hth] at hnc
        simp only [Bool.not_false, Bool.true_and] at hnc
        have hfa2 : findAfter actionColonPat s = none := by
          cases hf : findAfter actionColonPat s with
          | none => rfl
          | some r => simp [matchFirst, hf] at hnc
        simp [nonConvAction, matchFirstLn, findAfterLn_none_of_findAfter hfa2]
    simp [parseResultForNotConversational, hraw, haction, nonConvAnswerResult, trim]

/-- Claim C4 witness at a marker-free completion. -/
theorem no_markers_empty_answer_witness :
    _parseResult [webSearch] ("just chatting\nnothing structured".data) = .ok (.answer []) ∧
    parseResultForNotConversational [webSearch] ("just chatting\nnothing structured".data)
      = .ok (.answer []) :=
  no_markers_empty_answer [webSearch] ("just chatting\nnothing structured".data)
    (by decide) (by decide) (by decide) (by decide)

/-- Claim C9: whenever the non-conversational action variable contains the
literal `None`, the parser returns the answer decision built from the Final
Answer extraction (possibly empty); it never returns an action decision and
never raises tool-not-found. -/
theorem nonconv_none_action_returns_answer (ts : List Plugin) (s : List Char)
    (h : containsSub (nonConvAction s) nonePat = true) :
    parseResultForNotConversational ts s = .ok (.answer (trim (nonConvRawAnswer s))) := by
  cases hp : (nonConvPosOk s && !(nonConvRawAnswer s).isEmpty) with
  | true => simp [parseResultForNotConversational, hp, nonConvAnswerResult]
  | false => simp [parseResultForNotConversational, hp, h, nonConvAnswerResult]

/-- Claim C9 witness: a placeholder `None` action with no Final Answer. -/
theorem nonconv_none_action_returns_answer_witness :
    containsSub (nonConvAction ("T\nAction: None\n".data)) nonePat = true ∧
    parseResultForNotConversational [] ("T\nAction: None\n".data) = .ok (.answer []) :=
  ⟨by decide,
   nonconv_none_action_returns_answer [] ("T\nAction: None\n".data) (by decide)⟩

/-- Claim C10: with a non-empty thought and a conversational action resolving
to a known tool, a completion containing no `Action Input:` marker yields an
action decision whose tool input is the empty string. -/
theorem conv_missing_action_input_empty (ts : List Plugin) (s : List Char) (t : Plugin)
    (hth : (parsedThought s).isEmpty = false)
    (hma : (matchFirst convActionPat s).isSome = true)
    (hfind : ts.find? (fun p => p.nameForModel == convActionStr s) = some t)
    (hni : containsSub s actionInputColonPat = false) :
    _parseResult ts s = .ok (.action (trim (parsedThought s)) t []) := by
  have hsp : containsSub s actionInputSpacePat = false := by
    cases hx : containsSub s actionInputSpacePat with
    | false => rfl
    | true =>
      exact absurd (@containsSub_mono actionInputColonPat actionInputSpacePat s (by decide) hx)
        (by simp [hni])
  have hinput : extractedToolInput s = [] := by
    unfold extractedToolInput
    rw [matchFirst_eq_none hsp]
    rfl
  simp [_parseResult, hth, hma, hfind, hinput]

/-- Claim C10 witness. -/
theorem conv_missing_action_input_empty_witness :
    _parseResult [webSearch] ("think\nAction: web_search".data)
      = .ok (.action ("think".data) webSearch []) :=
  conv_missing_action_input_empty [webSearch] ("think\nAction: web_search".data) webSearch
    (by rfl) (by rfl) (by rfl) (by decide)

/-- Claim C2 (counterexample): this completion carries a `Positivity:` marker
followed by 9.5 and a non-empty Final Answer candidate, yet the parser
returns the trailing action instead of the answer: the marker sits at the
start of the completion and the source only matches `\nPositivity:`. -/
theorem positivity_marker_needs_newline :
    jsFloatGE9 (jsParseFloat (trim ((matchFirst ("Positivity:".data) c2CexInput).getD []))) = true ∧
    (trim (nonConvRawAnswer c2CexInput)).isEmpty = false ∧
    parseResultForNotConversational [webSearch] c2CexInput
      = .ok (.action ("think".data) webSearch ("x".data)) :=
  ⟨by decide, by decide, by rfl⟩

/-- Claim C2 (amended): when the positivity extraction of the source - rest
of the line after the first newline-preceded `Positivity:` marker, trimmed,
parsed - is at least 9 and the trimmed Final Answer candidate is non-empty,
the non-conversational parser immediately returns that trimmed answer. -/
theorem positivity_short_circuit (ts : List Plugin) (s : List Char)
    (hpos : nonConvPosOk s = true)
    (hans : (trim (nonConvRawAnswer s)).isEmpty = false) :
    parseResultForNotConversational ts s = .ok (.answer (trim (nonConvRawAnswer s))) := by
  have hraw : (nonConvRawAnswer s).isEmpty = false := by
    cases hr : nonConvRawAnswer s with
    | nil => rw [hr] at hans; exact absurd hans (by decide)
    | cons a l => rfl
  simp [parseResultForNotConversational, hpos, hraw, nonConvAnswerResult]

/-- Claim C2 witness at Example 3 of the spec. -/
theorem positivity_short_circuit_witness :
    parseResultForNotConversational [webSearch] c2WitnessInput
      = .ok (.answer ("Done.".data)) :=
  positivity_short_circuit [webSearch] c2WitnessInput (by rfl) (by rfl)

/-- Claim C1 (counterexample): the conversational parser keeps the quotes
around the thought span: the returned thought is trimmed but not
quote-stripped, contradicting the claim that thought and tool input are both
trimmed and quote-stripped once. -/
theorem conv_thought_not_quote_stripped :
    _parseResult [webSearch] c1CexInput
      = .ok (.action ("\"deep thought\"".data) webSearch ("x".data)) ∧
    stripQuotes (trim ("\"deep thought\"".data)) = ("deep thought".data) ∧
    ("\"deep thought\"".data) ≠ ("deep thought".data) :=
  ⟨by rfl, by decide, by decide⟩

/-- Claim C1 (amended): with a non-empty thought, action extractions that
resolve in both parsers to the same tool `t`, a non-empty non-`None` action
for the non-conversational parser and a positivity short-circuit that does
not fire, both parsers return an action decision on `t` whose thought is the
extracted span trimmed only - not quote-stripped - and whose tool input is
the extracted span trimmed and quote-stripped exactly once. -/
theorem parsers_action_decision_fields (ts : List Plugin) (s : List Char) (t : Plugin)
    (hth : (parsedThought s).isEmpty = false)
    (hca : (matchFirst convActionPat s).isSome = true)
    (hfc : ts.find? (fun p => p.nameForModel == convActionStr s) = some t)
    (hpos : (nonConvPosOk s && !(nonConvRawAnswer s).isEmpty) = false)
    (hae : (nonConvAction s).isEmpty = false)
    (hnone : containsSub (nonConvAction s) nonePat = false)
    (hfn : ts.find? (fun p => p.nameForModel == nonConvAction s) = some t) :
    _parseResult ts s = .ok (.action (trim (parsedThought s)) t (extractedToolInput s)) ∧
    parseResultForNotConversational ts s
      = .ok (.action (trim (parsedThought s)) (projPlugin t) (nonConvToolInput s)) := by
  constructor
  · simp [_parseResult, hth, hca, hfc]
  · simp [parseResultForNotConversational, hpos, hth, hae, hnone, hfn]

/-- Claim C1 witness at Example 1 of the spec. -/
theorem parsers_action_decision_fields_witness :
    _parseResult [webSearch] example1Input
      = .ok (.action ("I should search.".data) webSearch ("weather today".data)) ∧
    parseResultForNotConversational [webSearch] example1Input
      = .ok (.action ("I should search.".data) (projPlugin webSearch) ("weather today".data)) :=
  parsers_action_decision_fields [webSearch] example1Input webSearch
    (by rfl) (by rfl) (by rfl) (by rfl) (by rfl) (by decide) (by rfl)

/-- Claim C3 (counterexample): the extracted action `NoneSuch` matches no
tool and no Final Answer candidate exists, yet the non-conversational parser
raises nothing: the `None` guard silently turns the step into a plain empty
answer, contradicting the claimed raise-exactly-when-no-answer rule. -/
theorem none_action_swallows_missing_tool :
    List.find? (fun p => p.nameForModel == nonConvAction c3CexInput) [webSearch] = none ∧
    nonConvRawAnswer c3CexInput = [] ∧
    parseResultForNotConversational [webSearch] c3CexInput = .ok (.answer []) :=
  ⟨by decide, by decide, by rfl⟩

/-- Claim C3 (amended): with a non-empty thought: the conversational parser
always raises tool-not-found on an unresolved action; the non-conversational
parser - for a non-empty extracted action that does not contain `None` -
raises tool-not-found exactly when the raw Final Answer capture is empty,
and otherwise silently returns the answer decision with the trimmed
candidate. -/
theorem tool_not_found_asymmetry (ts : List Plugin) (s : List Char)
    (hth : (parsedThought s).isEmpty = false)
    (hca : (matchFirst convActionPat s).isSome = true)
    (hfc : ts.find? (fun p => p.nameForModel == convActionStr s) = none)
    (hae : (nonConvAction s).isEmpty = false)
    (hnone : containsSub (nonConvAction s) nonePat = false)
    (hfn : ts.find? (fun p => p.nameForModel == nonConvAction s) = none) :
    _parseResult ts s = .error (.toolNotFound (convActionStr s)) ∧
    (parseResultForNotConversational ts s = .error (.toolNotFound (nonConvAction s))
      ↔ nonConvRawAnswer s = []) ∧
    (nonConvRawAnswer s ≠ [] →
      parseResultForNotConversational ts s = .ok (.answer (trim (nonConvRawAnswer s)))) := by
  have hconv : _parseResult ts s = .error (.toolNotFound (convActionStr s)) := by
    simp [_parseResult, hth, hca, hfc]
  cases hr : nonConvRawAnswer s with
  | nil =>
    have hres : parseResultForNotConversational ts s
        = .error (.toolNotFound (nonConvAction s)) := by
      simp [parseResultForNotConversational, hr, hth, hae, hnone, hfn]
    exact ⟨hconv, ⟨fun _ => rfl, fun _ => hres⟩, fun hne => absurd rfl hne⟩
  | cons a l =>
    have hres : parseResultForNotConversational ts s
        = .ok (.answer (trim (nonConvRawAnswer s))) := by
      cases hp : nonConvPosOk s with
      | true => simp [parseResultForNotConversational, hp, hr, nonConvAnswerResult]
      | false =>
        simp [parseResultForNotConversational, hp, hr, hth, hae, hnone, hfn,
          nonConvAnswerResult]
    rw [hr] at hres
    refine ⟨hconv, ⟨fun habs => ?_, fun hh => ?_⟩, fun _ => hres⟩
    · rw [hres] at habs
      exact absurd habs (by simp)
    · exact absurd hh (by simp)

/-- Claim C3 witness: unresolved action with no answer raises in both
parsers. -/
theorem tool_not_found_asymmetry_witness :
    _parseResult [webSearch] c3WitnessInput = .error (.toolNotFound ("ghost".data)) ∧
    parseResultForNotConversational [webSearch] c3WitnessInput
      = .error (.toolNotFound ("ghost".data)) := by
  have h := tool_not_found_asymmetry [webSearch] c3WitnessInput
    (by rfl) (by rfl) (by decide) (by rfl) (by decide) (by decide)
  exact ⟨h.1, (h.2.1).mpr (by rfl)⟩

/-- Index of the first occurrence of `pat` as a contiguous substring. -/
def firstIdxOfInfix : List Char → List Char → Option Nat
  | [], pat => if pat.isPrefixOf [] then some 0 else none
  | c :: t, pat =>
    if pat.isPrefixOf (c :: t) then some 0
    else (firstIdxOfInfix t pat).map (· + 1)

/-- Final line segment of a list: everything after its last line
terminator. -/
def lastSegOf (l : List Char) : List Char :=
  (l.reverse.takeWhile (fun c => !isLineTerm c)).reverse

/-- Thought extraction as the amended claim words it: the segment strictly
between the last line terminator preceding the first `\nAction:` occurrence
(or the start of the completion) and that occurrence. -/
def specThoughtC5 (s : List Char) : Option (List Char) :=
  (firstIdxOfInfix s nlActionPat).map (fun j => lastSegOf (s.take j))

theorem takeWhile_append_stop {p : Char → Bool} {d : Char} (hd : p d = false)
    (u z : List Char) : (u ++ (d :: z)).takeWhile p = u.takeWhile p := by
  induction u with
  | nil => simp [List.takeWhile_cons, hd]
  | cons x u ih => simp [List.takeWhile_cons, ih]

theorem takeWhile_all {p : Char → Bool} :
    ∀ l : List Char, (∀ c ∈ l, p c = true) → l.takeWhile p = l := by
  intro l h
  induction l with
  | nil => rfl
  | cons x t ih =>
    have hx : p x = true := h x (by simp)
    simp [List.takeWhile_cons, hx, ih (fun c hc => h c (by simp [hc]))]

theorem lastSegOf_append_term {d : Char} (hd : isLineTerm d = true)
    (a y : List Char) : lastSegOf (a ++ (d :: y)) = lastSegOf y := by
  unfold lastSegOf
  rw [List.reverse_append, List.reverse_cons, List.append_assoc,
    List.singleton_append, takeWhile_append_stop (by simp [hd])]

theorem lastSegOf_no_term {l : List Char} (h : ∀ c ∈ l, isLineTerm c = false) :
    lastSegOf l = l := by
  unfold lastSegOf
  rw [takeWhile_all l.reverse (fun c hc => by simp [h c (List.mem_reverse.mp hc)])]
  exact List.reverse_reverse l

theorem matchThoughtAux_spec :
    ∀ s acc : List Char, (∀ c ∈ acc, isLineTerm c = false) →
      matchThoughtAux s acc
        = (firstIdxOfInfix s nlActionPat).map (fun j => lastSegOf (acc.reverse ++ s.take j)) := by
  intro s
  induction s with
  | nil => intro acc _; rfl
  | cons c rest ih =>
    intro acc hacc
    have hpatcons : nlActionPat = '\n' :: actionColonPat := rfl
    by_cases hc : c = '\n'
    · subst hc
      cases hpre : actionColonPat.isPrefixOf rest with
      | true =>
        have hfull : nlActionPat.isPrefixOf ('\n' :: rest) = true := by
          rw [hpatcons]
          show (('\n' : Char) == '\n' && actionColonPat.isPrefixOf rest) = true
          simp [hpre]
        have hlhs : matchThoughtAux ('\n' :: rest) acc = some acc.reverse := by
          simp [matchThoughtAux, hpre]
        rw [hlhs]
        simp only [firstIdxOfInfix, hfull, if_true, Option.map_some']
        rw [List.take_zero, List.append_nil,
          lastSegOf_no_term (fun x hx => hacc x (List.mem_reverse.mp hx))]
      | false =>
        have hfull : nlActionPat.isPrefixOf ('\n' :: rest) = false := by
          rw [hpatcons]
          show (('\n' : Char) == '\n' && actionColonPat.isPrefixOf rest) = false
          simp [hpre]
        have hlhs : matchThoughtAux ('\n' :: rest) acc = matchThoughtAux rest [] := by
          simp [matchThoughtAux, hpre]
        rw [hlhs, ih [] (by simp)]
        simp only [firstIdxOfInfix, hfull, if_false, Bool.false_eq_true]
        cases hidx : firstIdxOfInfix rest nlActionPat with
        | none => rfl
        | some j =>
          simp only [Option.map_some', List.reverse_nil, List.nil_append,
            List.take_succ_cons]
          rw [lastSegOf_append_term (by simp [isLineTerm]) acc.reverse (rest.take j)]
    · have hbeq : (('\n' : Char) == c) = false := by
        cases hq : ('\n' : Char) == c with
        | false => rfl
        | true => exact absurd (beq_iff_eq.mp hq).symm hc
      have hfull : nlActionPat.isPrefixOf (c :: rest) = false := by
        rw [hpatcons]
        show (('\n' : Char) == c && actionColonPat.isPrefixOf rest) = false
        simp [hbeq]
      cases hl : isLineTerm c with
      | true =>
        have hlhs : matchThoughtAux (c :: rest) acc = matchThoughtAux rest [] := by
          simp [matchThoughtAux, hc, hl]
        rw [hlhs, ih [] (by simp)]
        simp only [firstIdxOfInfix, hfull, if_false, Bool.false_eq_true]
        cases hidx : firstIdxOfInfix rest nlActionPat with
        | none => rfl
        | some j =>
          simp only [Option.map_some', List.reverse_nil, List.nil_append,
            List.take_succ_cons]
          rw [lastSegOf_append_term hl acc.reverse (rest.take j)]
      | false =>
        have hlhs : matchThoughtAux (c :: rest) acc = matchThoughtAux rest (c :: acc) := by
          simp [matchThoughtAux, hc, hl]
        have hacc2 : ∀ x ∈ (c :: acc), isLineTerm x = false := by
          intro x hx
          rcases List.mem_cons.mp hx with he | hm
          · rw [he]; exact hl
          · exact hacc x hm
        rw [hlhs, ih (c :: acc) hacc2]
        simp only [firstIdxOfInfix, hfull, if_false, Bool.false_eq_true]
        cases hidx : firstIdxOfInfix rest nlActionPat with
        | none => rfl
        | some j =>
          simp only [Option.map_some', List.reverse_cons, List.take_succ_cons]
          rw [List.append_assoc, List.singleton_append]

/-- Claim C5 (counterexample): with a two-line thought before the action
marker the parser extracts only the final line `B`, not the whole preceding
text trimmed (`A\nB`), so the thought is not everything preceding the first
`Action:` marker. -/
theorem thought_only_last_line :
    _parseResult [webSearch] c5CexInput = .ok (.action ("B".data) webSearch ("x".data)) ∧
    trim ("A\nB\n".data) = ("A\nB".data) ∧
    ("B".data) ≠ ("A\nB".data) :=
  ⟨by rfl, by decide, by decide⟩

/-- Claim C5 (amended): for every completion the thought capture is exactly
the segment between the last line terminator preceding the first occurrence
of `\nAction:` (or the start of the completion) and that occurrence - a
single line, never the whole preceding text - and it is absent when no
newline-preceded `Action:` marker exists. -/
theorem thought_extraction_last_segment (s : List Char) :
    matchThought s = specThoughtC5 s := by
  unfold matchThought specThoughtC5
  rw [matchThoughtAux_spec s [] (by simp)]
  cases firstIdxOfInfix s nlActionPat with
  | none => rfl
  | some j => simp

/-- Occurrences of the character `c`. -/
def countCh (c : Char) : List Char → Nat
  | [] => 0
  | x :: t => (if x = c then 1 else 0) + countCh c t

theorem splitTermLines_no_term {s : List Char}
    (h : ∀ x ∈ s, isLineTerm x = false) : splitTermLines s = [s] := by
  induction s with
  | nil => rfl
  | cons c t ih =>
    have hc : isLineTerm c = false := h c (by simp)
    have ht := ih (fun x hx => h x (by simp [hx]))
    simp [splitTermLines, hc, ht]

theorem afterFirst_append {c : Char} {u : List Char} (h : c ∉ u)
    (r : List Char) : afterFirst c (u ++ (c :: r)) = some r := by
  induction u with
  | nil => simp [afterFirst]
  | cons x u ih =>
    have hx : ¬(x = c) := fun he => h (by simp [he])
    simp [afterFirst, hx, ih (fun hm => h (by simp [hm]))]

theorem afterFirst_eq_none {c : Char} {l : List Char} (h : c ∉ l) :
    afterFirst c l = none := by
  induction l with
  | nil => rfl
  | cons x t ih =>
    have hx : ¬(x = c) := fun he => h (by simp [he])
    simp [afterFirst, hx, ih (fun hm => h (by simp [hm]))]

theorem afterFirst_count {c : Char} :
    ∀ {l r : List Char}, afterFirst c l = some r → countCh c l = countCh c r + 1 := by
  intro l
  induction l with
  | nil => intro r h; cases h
  | cons x t ih =>
    intro r h
    by_cases hx : x = c
    · have hr : t = r := by simpa [afterFirst, hx] using h
      simp [countCh, hx, hr, Nat.add_comm]
    · have h2 : afterFirst c t = some r := by simpa [afterFirst, hx] using h
      simp [countCh, hx, ih h2]

theorem countCh_eq_zero {c : Char} :
    ∀ {l : List Char}, countCh c l = 0 → c ∉ l := by
  intro l
  induction l with
  | nil => intro _; simp
  | cons x t ih =>
    intro h0
    by_cases hx : x = c
    · simp [countCh, hx] at h0
    · have ht : countCh c t = 0 := by simpa [countCh, hx] using h0
      intro hmem
      rcases List.mem_cons.mp hmem with he | hm
      · exact hx he.symm
      · exact ih ht hm

theorem stripLine_eq_none {c : Char} {l : List Char} (h : countCh c l ≤ 1) :
    stripLine c l = none := by
  cases ha : afterFirst c l with
  | none => simp [stripLine, ha]
  | some r =>
    have hcnt := afterFirst_count ha
    have hr0 : countCh c r = 0 := by omega
    have hnone : afterFirst c r.reverse = none :=
      afterFirst_eq_none (fun hm => countCh_eq_zero hr0 (List.mem_reverse.mp hm))
    simp [stripLine, ha, beforeLast, hnone]

theorem firstSome_eq_none {f : List Char → Option (List Char)} :
    ∀ {L : List (List Char)}, (∀ l ∈ L, f l = none) → firstSome f L = none := by
  intro L
  induction L with
  | nil => intro _; rfl
  | cons l ls ih =>
    intro h
    have h1 : f l = none := h l (by simp)
    simp [firstSome, h1, ih (fun x hx => h x (by simp [hx]))]

theorem strip_unchanged {c : Char} {s : List Char}
    (h : ∀ l ∈ splitTermLines s, countCh c l ≤ 1) : strip s c = s := by
  have hall : firstSome (stripLine c) (splitTermLines s) = none :=
    firstSome_eq_none (fun l hl => stripLine_eq_none (h l hl))
  simp [strip, hall]

theorem stripLine_capture {c : Char} {u w : List Char} (v : List Char)
    (hu : c ∉ u) (hw : c ∉ w) :
    stripLine c (u ++ (c :: (v ++ (c :: w)))) = some v := by
  have haf : afterFirst c (u ++ (c :: (v ++ (c :: w)))) = some (v ++ (c :: w)) :=
    afterFirst_append hu (v ++ (c :: w))
  have hbl : beforeLast c (v ++ (c :: w)) = some v := by
    unfold beforeLast
    rw [List.reverse_append, List.reverse_cons, List.append_assoc,
      List.singleton_append,
      afterFirst_append (fun hm => hw (List.mem_reverse.mp hm)) v.reverse]
    simp
  simp [stripLine, haf, hbl]

theorem firstSome_append_none {f : List Char → Option (List Char)} :
    ∀ {L1 : List (List Char)} (L2 : List (List Char)),
      (∀ l ∈ L1, f l = none) → firstSome f (L1 ++ L2) = firstSome f L2 := by
  intro L1
  induction L1 with
  | nil => intro L2 _; rfl
  | cons l ls ih =>
    intro L2 h
    have h1 : f l = none := h l (by simp)
    simp [firstSome, h1, ih L2 (fun x hx => h x (by simp [hx]))]

theorem strip_first_two_quote_line {c : Char} {s : List Char}
    {L1 L2 : List (List Char)} {u v w : List Char}
    (hdec : splitTermLines s = L1 ++ ((u ++ (c :: (v ++ (c :: w)))) :: L2))
    (hpre : ∀ l ∈ L1, countCh c l ≤ 1)
    (hu : c ∉ u) (hw : c ∉ w) :
    strip s c = v := by
  have hfs : firstSome (stripLine c) (splitTermLines s) = some v := by
    rw [hdec, firstSome_append_none _ (fun l hl => stripLine_eq_none (hpre l hl))]
    simp [firstSome, stripLine_capture v hu hw]
  simp [strip, hfs]

/-- Claim C6 (counterexample): the quote characters of `a"b"c` do not form a
surrounding pair, yet stripping does not leave the string unchanged: it keeps
only the span between the two quotes. -/
theorem strip_non_surrounding_changes :
    stripQuotes ("a\"b\"c".data) = ("b".data) ∧
    stripQuotes ("a\"b\"c".data) ≠ ("a\"b\"c".data) :=
  ⟨by decide, by decide⟩

/-- Claim C6 (amended): one strip per quote kind finds the first line of the
string holding two occurrences of its quote character and keeps exactly the
span between the first and the last occurrence on that line, dropping the
text outside the pair on that line and every other line of the string - the
surrounding pair on a one-line string being the special case with nothing
outside; stripping `"it`, an apostrophe, then `s"` removes only the double
quotes; and a string whose lines never hold two occurrences of the quote
kind is unchanged. -/
theorem strip_between_first_and_last :
    (∀ (c : Char) (s : List Char) (L1 L2 : List (List Char)) (u v w : List Char),
      splitTermLines s = L1 ++ ((u ++ (c :: (v ++ (c :: w)))) :: L2) →
      (∀ l ∈ L1, countCh c l ≤ 1) → c ∉ u → c ∉ w →
      strip s c = v) ∧
    stripQuotes ['"', 'i', 't', '\'', 's', '"'] = ['i', 't', '\'', 's'] ∧
    (∀ (c : Char) (s : List Char),
      (∀ l ∈ splitTermLines s, countCh c l ≤ 1) → strip s c = s) :=
  ⟨fun _ _ _ _ _ _ _ h1 h2 h3 h4 => strip_first_two_quote_line h1 h2 h3 h4,
   by decide,
   fun _ _ h => strip_unchanged h⟩

/-- Claim C6 witness: the span rule on a two-line string whose second line
holds the quote pair, and the unchanged rule on a quote-free string. -/
theorem strip_between_first_and_last_witness :
    strip ("x\na\"b\"c".data) '"' = ("b".data) ∧
    strip ("ab\ncd".data) '"' = ("ab\ncd".data) := by
  have h := strip_between_first_and_last
  constructor
  · exact h.1 '"' ("x\na\"b\"c".data) [("x".data)] [] ("a".data) ("b".data) ("c".data)
      (by decide) (by decide) (by decide) (by decide)
  · exact h.2.2 '"' ("ab\ncd".data) (by decide)

/-- Claim C7 (counterexample): stripQuotes is not idempotent: `""a""` strips
to `"a"` and stripping again yields `a`. -/
theorem stripQuotes_not_idempotent :
    stripQuotes ("\"\"a\"\"".data) = ("\"a\"".data) ∧
    stripQuotes (stripQuotes ("\"\"a\"\"".data)) = ("a".data) ∧
    stripQuotes (stripQuotes ("\"\"a\"\"".data)) ≠ stripQuotes ("\"\"a\"\"".data) :=
  ⟨by decide, by decide, by decide⟩

/-- Claim C7 (amended): the three examples hold - stripping `"foo"` yields
`foo`, stripping single-quoted `foo` yields `foo`, a bare `foo` is unchanged -
and stripQuotes is the identity, hence idempotent, on every string whose
lines never hold two double quotes nor two single quotes; full idempotence
fails (see the counterexample). -/
theorem stripQuotes_idempotent_when_sparse :
    (∀ s : List Char,
      (∀ l ∈ splitTermLines s, countCh '"' l ≤ 1 ∧ countCh '\'' l ≤ 1) →
      stripQuotes s = s ∧ stripQuotes (stripQuotes s) = stripQuotes s) ∧
    stripQuotes ("\"foo\"".data) = ("foo".data) ∧
    stripQuotes ['\'', 'f', 'o', 'o', '\''] = ("foo".data) ∧
    stripQuotes ("foo".data) = ("foo".data) := by
  refine ⟨?_, by decide, by decide, by decide⟩
  intro s h
  have h1 : strip s '"' = s := strip_unchanged (fun l hl => (h l hl).1)
  have h2 : strip s '\'' = s := strip_unchanged (fun l hl => (h l hl).2)
  have hq : stripQuotes s = s := by rw [stripQuotes, h1, h2]
  exact ⟨hq, by rw [hq, hq]⟩

/-- Claim C7 witness: the sparse rule applied at a plain string. -/
theorem stripQuotes_idempotent_when_sparse_witness :
    stripQuotes ("plain text".data) = ("plain text".data) ∧
    stripQuotes (stripQuotes ("plain text".data)) = stripQuotes ("plain text".data) :=
  stripQuotes_idempotent_when_sparse.1 ("plain text".data) (by decide)

/-- Claim C8 (code bug): the conversational scratchpad builder interpolates
the plugin object itself into the template literal, so the action line reads
`Action:[object Object]` instead of carrying the machine-facing tool name;
the non-conversational builder emits the name as specified. Both builders
keep record order and append the trailing `Thought:` cue. -/
theorem conv_scratchpad_object_interpolation :
    buildAgentScratchpad [⟨⟨"t1".data, webSearch, "x".data⟩, "ok".data⟩]
      = ("Thought:t1\nAction:[object Object]\nAction Input: x\nObservation: ok\nThought:".data) ∧
    containsSub (buildAgentScratchpad [⟨⟨"t1".data, webSearch, "x".data⟩, "ok".data⟩])
      ("web_search".data) = false ∧
    buildNotConversationalScratchpad [⟨⟨"t1".data, webSearch, "x".data⟩, "ok".data⟩]
      = ("Thought: t1\nAction: web_search\nAction Input: x\nObservation: ok\nThought:".data) :=
  ⟨by rfl, by decide, by rfl⟩

end Agent
